import Mathlib

/-!
Verification of the RTNeural layer-computation engine against its design
specification.

The numeric element type `T` (float/double) is modelled by the exact
rationals `ℚ`: the claims under study concern indexing, gate-slicing,
state handling, control flow and exact reference formulas, for which the
exact field is the reference semantics (the spec treats floating-point
deviation as a tolerance question, not as part of the contracts proved
here).  Transcendental functions (`exp`, `tanh`, the sigmoid) are modelled
as abstract function parameters, so every theorem holds for all of them,
in particular for the real ones.

Eigen matrices of run-time shape `(out_size, in_size)` are modelled as
total functions `Fin out_size → Fin in_size → ℚ`; raw C buffers written by
index loops are modelled as `Nat → ℚ` functions updated by `Function.update`
folds over the literal loop ranges, so each source loop has a direct
`List.foldl` counterpart.
-/

namespace RTNeural

/-- Pointwise store `M(k, i) = v` of a single matrix entry, the effect of one
assignment inside a weight-loading loop body. -/
def writeEntry {m n : Nat} (M : Fin m → Fin n → ℚ) (k : Fin m) (i : Fin n) (v : ℚ) :
    Fin m → Fin n → ℚ :=
  fun k' i' => if k' = k ∧ i' = i then v else M k' i'

/-- State of `RTNeural::LSTMLayer<T>` (src/RTNeural/lstm/lstm_eigen.tpp).
The field list mirrors the Eigen member matrices: per-gate kernel matrices
`W*` of shape `(out_size, in_size)`, recurrent matrices `U*` of shape
`(out_size, out_size)`, per-gate biases `b*`, the scratch gate vectors
`fVec, iVec, oVec, ctVec, cVec`, the scratch `inVec` (allocated with
`out_size` rows by the constructor, as in the source), and the persistent
hidden/cell state `ht1`/`ct1`. -/
@[ext]
structure LSTMLayer (in_size out_size : Nat) where
  Wf : Fin out_size → Fin in_size → ℚ
  Wi : Fin out_size → Fin in_size → ℚ
  Wo : Fin out_size → Fin in_size → ℚ
  Wc : Fin out_size → Fin in_size → ℚ
  Uf : Fin out_size → Fin out_size → ℚ
  Ui : Fin out_size → Fin out_size → ℚ
  Uo : Fin out_size → Fin out_size → ℚ
  Uc : Fin out_size → Fin out_size → ℚ
  bf : Fin out_size → ℚ
  bi : Fin out_size → ℚ
  bo : Fin out_size → ℚ
  bc : Fin out_size → ℚ
  fVec : Fin out_size → ℚ
  iVec : Fin out_size → ℚ
  oVec : Fin out_size → ℚ
  ctVec : Fin out_size → ℚ
  cVec : Fin out_size → ℚ
  inVec : Fin out_size → ℚ
  ht1 : Fin out_size → ℚ
  ct1 : Fin out_size → ℚ

/-- `LSTMLayer<T>::LSTMLayer(size_t in_size, size_t out_size)`
(lstm_eigen.tpp lines 6-34): every member matrix is created with
`Eigen::Matrix::Zero`, so every buffer is all-zero. -/
def LSTMLayer.new (in_size out_size : Nat) : LSTMLayer in_size out_size where
  Wf := fun _ _ => 0
  Wi := fun _ _ => 0
  Wo := fun _ _ => 0
  Wc := fun _ _ => 0
  Uf := fun _ _ => 0
  Ui := fun _ _ => 0
  Uo := fun _ _ => 0
  Uc := fun _ _ => 0
  bf := fun _ => 0
  bi := fun _ => 0
  bo := fun _ => 0
  bc := fun _ => 0
  fVec := fun _ => 0
  iVec := fun _ => 0
  oVec := fun _ => 0
  ctVec := fun _ => 0
  cVec := fun _ => 0
  inVec := fun _ => 0
  ht1 := fun _ => 0
  ct1 := fun _ => 0

/-- `LSTMLayer<T>::LSTMLayer(const LSTMLayer& other)` (lstm_eigen.tpp lines
42-46): delegates to the size constructor with `other.in_size, other.out_size`
and copies nothing else. -/
def LSTMLayer.copy {ins outs : Nat} (_other : LSTMLayer ins outs) : LSTMLayer ins outs :=
  LSTMLayer.new ins outs

/-- `LSTMLayer<T>::reset()` (lstm_eigen.tpp lines 54-59): `std::fill` of the
whole `ht1` and `ct1` buffers with zero. -/
def LSTMLayer.reset {ins outs : Nat} (L : LSTMLayer ins outs) : LSTMLayer ins outs :=
  { L with ht1 := fun _ => 0, ct1 := fun _ => 0 }

/-- Loop body of `LSTMLayer<T>::setWVals` (lstm_eigen.tpp lines 66-72): the
four stores of one `(i, k)` iteration,
`Wi(k,i) = wVals[i][k]`, `Wf(k,i) = wVals[i][k + out_size]`,
`Wc(k,i) = wVals[i][k + out_size*2]`, `Wo(k,i) = wVals[i][k + out_size*3]`. -/
def lstmSetWStep {ins outs : Nat} (wVals : Nat → Nat → ℚ) (Lb : LSTMLayer ins outs)
    (i : Fin ins) (k : Fin outs) : LSTMLayer ins outs :=
  { Lb with
    Wi := writeEntry Lb.Wi k i (wVals i.val k.val)
    Wf := writeEntry Lb.Wf k i (wVals i.val (k.val + outs))
    Wc := writeEntry Lb.Wc k i (wVals i.val (k.val + outs * 2))
    Wo := writeEntry Lb.Wo k i (wVals i.val (k.val + outs * 3)) }

/-- `LSTMLayer<T>::setWVals` (lstm_eigen.tpp lines 61-74): the literal nested
loop `for i < in_size, for k < out_size` over the stores of `lstmSetWStep`.
The caller-supplied nested vector is modelled as a total function. -/
def LSTMLayer.setWVals {ins outs : Nat} (L : LSTMLayer ins outs) (wVals : Nat → Nat → ℚ) :
    LSTMLayer ins outs :=
  (List.finRange ins).foldl
    (fun La i => (List.finRange outs).foldl (fun Lb k => lstmSetWStep wVals Lb i k) La)
    L

/-- Loop body of `LSTMLayer<T>::setUVals` (lstm_eigen.tpp lines 81-87). -/
def lstmSetUStep {ins outs : Nat} (uVals : Nat → Nat → ℚ) (Lb : LSTMLayer ins outs)
    (i : Fin outs) (k : Fin outs) : LSTMLayer ins outs :=
  { Lb with
    Ui := writeEntry Lb.Ui k i (uVals i.val k.val)
    Uf := writeEntry Lb.Uf k i (uVals i.val (k.val + outs))
    Uc := writeEntry Lb.Uc k i (uVals i.val (k.val + outs * 2))
    Uo := writeEntry Lb.Uo k i (uVals i.val (k.val + outs * 3)) }

/-- `LSTMLayer<T>::setUVals` (lstm_eigen.tpp lines 76-89): same nested loop
with `i < out_size`, writing the recurrent kernels at the same offsets. -/
def LSTMLayer.setUVals {ins outs : Nat} (L : LSTMLayer ins outs) (uVals : Nat → Nat → ℚ) :
    LSTMLayer ins outs :=
  (List.finRange outs).foldl
    (fun La i => (List.finRange outs).foldl (fun Lb k => lstmSetUStep uVals Lb i k) La)
    L

/-- Loop body of `LSTMLayer<T>::setBVals` (lstm_eigen.tpp lines 94-99): the
four stores of one `k` iteration, `bi(k) = bVals[k]`,
`bf(k) = bVals[k + out_size]`, `bc(k) = bVals[k + out_size*2]`,
`bo(k) = bVals[k + out_size*3]`. -/
def lstmSetBStep {ins outs : Nat} (bVals : Nat → ℚ) (Lb : LSTMLayer ins outs)
    (k : Fin outs) : LSTMLayer ins outs :=
  { Lb with
    bi := Function.update Lb.bi k (bVals k.val)
    bf := Function.update Lb.bf k (bVals (k.val + outs))
    bc := Function.update Lb.bc k (bVals (k.val + outs * 2))
    bo := Function.update Lb.bo k (bVals (k.val + outs * 3)) }

/-- `LSTMLayer<T>::setBVals` (lstm_eigen.tpp lines 91-101): single loop
`for k < out_size` over the stores of `lstmSetBStep`. -/
def LSTMLayer.setBVals {ins outs : Nat} (L : LSTMLayer ins outs) (bVals : Nat → ℚ) :
    LSTMLayer ins outs :=
  (List.finRange outs).foldl (fun Lb k => lstmSetBStep bVals Lb k) L

/-- Modelled from the spec: the LSTM per-step update of section 4.5.  The body
of `LSTMLayer<T>::forward` is not among the provided sources (only its uses
and the declaration in lstm_eigen.h are), so it is taken from the spec's
equations.  The nonlinearities are abstract parameters `sig` (sigmoid) and
`th` (tanh); the function returns the output together with the updated layer,
whose scratch gate vectors hold the freshly computed gate activations and
whose persistent state becomes the new `h` and `c`. -/
def LSTMLayer.forward {ins outs : Nat} (sig th : ℚ → ℚ) (L : LSTMLayer ins outs)
    (x : Fin ins → ℚ) : (Fin outs → ℚ) × LSTMLayer ins outs :=
  let iG : Fin outs → ℚ :=
    fun k => sig ((∑ j, L.Wi k j * x j) + (∑ j, L.Ui k j * L.ht1 j) + L.bi k)
  let fG : Fin outs → ℚ :=
    fun k => sig ((∑ j, L.Wf k j * x j) + (∑ j, L.Uf k j * L.ht1 j) + L.bf k)
  let oG : Fin outs → ℚ :=
    fun k => sig ((∑ j, L.Wo k j * x j) + (∑ j, L.Uo k j * L.ht1 j) + L.bo k)
  let cG : Fin outs → ℚ :=
    fun k => th ((∑ j, L.Wc k j * x j) + (∑ j, L.Uc k j * L.ht1 j) + L.bc k)
  let cN : Fin outs → ℚ := fun k => fG k * L.ct1 k + iG k * cG k
  let hN : Fin outs → ℚ := fun k => oG k * th (cN k)
  (hN, { L with fVec := fG, iVec := iG, oVec := oG, ctVec := cG, cVec := cN,
                ht1 := hN, ct1 := cN })

/-- A freshly constructed, then fully configured LSTM layer: the caller-side
composition construct-then-load described by the spec's configuration
contract. -/
def LSTMLayer.configure (ins outs : Nat) (w u : Nat → Nat → ℚ) (b : Nat → ℚ) :
    LSTMLayer ins outs :=
  (((LSTMLayer.new ins outs).setWVals w).setUVals u).setBVals b

/-- A history of `forward` calls: feed the inputs `xs` one per call, keeping
the updated layer each time (the spec's one-call-per-sample control flow). -/
def LSTMLayer.runSeq {ins outs : Nat} (sig th : ℚ → ℚ) (L : LSTMLayer ins outs)
    (xs : List (Fin ins → ℚ)) : LSTMLayer ins outs :=
  xs.foldl (fun La xi => (LSTMLayer.forward sig th La xi).2) L

/-- `LSTMLayer<T>::operator=` (lstm_eigen.tpp lines 48-52) is
`return *this = LSTMLayer<T>(other);`.  Since declaring the copy operations
suppresses any move assignment, the inner assignment invokes the same
user-defined copy-assignment operator on the copy-constructed temporary, with
no base case.  The recursion is modelled with explicit fuel; `none` means the
call did not return within the given number of recursive steps. -/
def lstmAssign {ins outs : Nat} :
    Nat → LSTMLayer ins outs → LSTMLayer ins outs → Option (LSTMLayer ins outs)
  | 0, _, _ => none
  | fuel + 1, self, other => lstmAssign fuel self (LSTMLayer.copy other)

/-- State of `RTNeural::GRULayer<T>` (src/RTNeural/lstm/lstm_eigen.tpp,
GRU part): kernels `wVec_*` of shape `(out_size, in_size)`, recurrent kernels
`uVec_*` of shape `(out_size, out_size)`, two-column bias matrices `bVec_*`
of shape `(out_size, 2)`, the hidden state `ht1`, scratch gate vectors,
scratch `inVec` (of `in_size` rows here) and the constant `ones` vector. -/
@[ext]
structure GRULayer (in_size out_size : Nat) where
  wVec_z : Fin out_size → Fin in_size → ℚ
  wVec_r : Fin out_size → Fin in_size → ℚ
  wVec_c : Fin out_size → Fin in_size → ℚ
  uVec_z : Fin out_size → Fin out_size → ℚ
  uVec_r : Fin out_size → Fin out_size → ℚ
  uVec_c : Fin out_size → Fin out_size → ℚ
  bVec_z : Fin out_size → Fin 2 → ℚ
  bVec_r : Fin out_size → Fin 2 → ℚ
  bVec_c : Fin out_size → Fin 2 → ℚ
  ht1 : Fin out_size → ℚ
  zVec : Fin out_size → ℚ
  rVec : Fin out_size → ℚ
  cVec : Fin out_size → ℚ
  inVec : Fin in_size → ℚ
  ones : Fin out_size → ℚ

/-- `GRULayer<T>::GRULayer(size_t, size_t)` (lstm_eigen.tpp lines 112-132):
all matrices created with `Zero`, except `ones`, created with `Ones`. -/
def GRULayer.new (in_size out_size : Nat) : GRULayer in_size out_size where
  wVec_z := fun _ _ => 0
  wVec_r := fun _ _ => 0
  wVec_c := fun _ _ => 0
  uVec_z := fun _ _ => 0
  uVec_r := fun _ _ => 0
  uVec_c := fun _ _ => 0
  bVec_z := fun _ _ => 0
  bVec_r := fun _ _ => 0
  bVec_c := fun _ _ => 0
  ht1 := fun _ => 0
  zVec := fun _ => 0
  rVec := fun _ => 0
  cVec := fun _ => 0
  inVec := fun _ => 0
  ones := fun _ => 1

/-- `GRULayer<T>::GRULayer(const GRULayer&)` (lstm_eigen.tpp lines 140-144):
delegates to the size constructor, copying only the shape. -/
def GRULayer.copy {ins outs : Nat} (_other : GRULayer ins outs) : GRULayer ins outs :=
  GRULayer.new ins outs

/-- Loop body of `GRULayer<T>::setWVals` (lstm_eigen.tpp lines 157-162):
`wVec_z(k,i) = wVals[i][k]`, `wVec_r(k,i) = wVals[i][k + out_size]`,
`wVec_c(k,i) = wVals[i][k + out_size*2]`. -/
def gruSetWStep {ins outs : Nat} (wVals : Nat → Nat → ℚ) (Lb : GRULayer ins outs)
    (i : Fin ins) (k : Fin outs) : GRULayer ins outs :=
  { Lb with
    wVec_z := writeEntry Lb.wVec_z k i (wVals i.val k.val)
    wVec_r := writeEntry Lb.wVec_r k i (wVals i.val (k.val + outs))
    wVec_c := writeEntry Lb.wVec_c k i (wVals i.val (k.val + outs * 2)) }

/-- `GRULayer<T>::setWVals` (lstm_eigen.tpp lines 152-164; the `T**` overload
at lines 167-178 has the identical body): the nested loop
`for i < in_size, for k < out_size` over the stores of `gruSetWStep`. -/
def GRULayer.setWVals {ins outs : Nat} (L : GRULayer ins outs) (wVals : Nat → Nat → ℚ) :
    GRULayer ins outs :=
  (List.finRange ins).foldl
    (fun La i => (List.finRange outs).foldl (fun Lb k => gruSetWStep wVals Lb i k) La)
    L

/-- Loop body of `GRULayer<T>::setUVals` (lstm_eigen.tpp lines 185-190). -/
def gruSetUStep {ins outs : Nat} (uVals : Nat → Nat → ℚ) (Lb : GRULayer ins outs)
    (i : Fin outs) (k : Fin outs) : GRULayer ins outs :=
  { Lb with
    uVec_z := writeEntry Lb.uVec_z k i (uVals i.val k.val)
    uVec_r := writeEntry Lb.uVec_r k i (uVals i.val (k.val + outs))
    uVec_c := writeEntry Lb.uVec_c k i (uVals i.val (k.val + outs * 2)) }

/-- `GRULayer<T>::setUVals` (lstm_eigen.tpp lines 181-192; `T**` overload
identical): same slicing for the recurrent kernels, outer loop `i < out_size`. -/
def GRULayer.setUVals {ins outs : Nat} (L : GRULayer ins outs) (uVals : Nat → Nat → ℚ) :
    GRULayer ins outs :=
  (List.finRange outs).foldl
    (fun La i => (List.finRange outs).foldl (fun Lb k => gruSetUStep uVals Lb i k) La)
    L

/-- Loop body of `GRULayer<T>::setBVals` (lstm_eigen.tpp lines 213-218). -/
def gruSetBStep {ins outs : Nat} (bVals : Nat → Nat → ℚ) (Lb : GRULayer ins outs)
    (i : Fin 2) (k : Fin outs) : GRULayer ins outs :=
  { Lb with
    bVec_z := writeEntry Lb.bVec_z k i (bVals i.val k.val)
    bVec_r := writeEntry Lb.bVec_r k i (bVals i.val (k.val + outs))
    bVec_c := writeEntry Lb.bVec_c k i (bVals i.val (k.val + outs * 2)) }

/-- `GRULayer<T>::setBVals` (lstm_eigen.tpp lines 209-220; `T**` overload
identical): outer loop `i < 2` over the two bias columns, inner loop
`k < out_size`, same gate offsets `0, out_size, out_size*2`. -/
def GRULayer.setBVals {ins outs : Nat} (L : GRULayer ins outs) (bVals : Nat → Nat → ℚ) :
    GRULayer ins outs :=
  (List.finRange 2).foldl
    (fun La i => (List.finRange outs).foldl (fun Lb k => gruSetBStep bVals Lb i k) La)
    L

/-- `GRULayer<T>::getWVal(size_t i, size_t k)` (lstm_eigen.tpp lines 236-246),
translated literally: `set` starts as `wVec_z`, is replaced by `wVec_c` when
`k > 2*out_size`, else by `wVec_r` when `k > out_size` (strict comparisons,
exactly as in the source), and the entry `set(k % out_size, i)` is returned.
The positivity hypothesis reflects the spec invariant `out_size > 0` (the
C++ `k % out_size` would otherwise divide by zero). -/
def GRULayer.getWVal {ins outs : Nat} (L : GRULayer ins outs) (i : Fin ins) (k : Nat)
    (h : 0 < outs) : ℚ :=
  let set := if 2 * outs < k then L.wVec_c else if outs < k then L.wVec_r else L.wVec_z
  set ⟨k % outs, Nat.mod_lt k h⟩ i

/-- `GRULayer<T>::getUVal` (lstm_eigen.tpp lines 249-258), same shape. -/
def GRULayer.getUVal {ins outs : Nat} (L : GRULayer ins outs) (i : Fin outs) (k : Nat)
    (h : 0 < outs) : ℚ :=
  let set := if 2 * outs < k then L.uVec_c else if outs < k then L.uVec_r else L.uVec_z
  set ⟨k % outs, Nat.mod_lt k h⟩ i

/-- `GRULayer<T>::getBVal` (lstm_eigen.tpp lines 261-270), same shape; `i`
selects one of the two bias columns. -/
def GRULayer.getBVal {ins outs : Nat} (L : GRULayer ins outs) (i : Fin 2) (k : Nat)
    (h : 0 < outs) : ℚ :=
  let set := if 2 * outs < k then L.bVec_c else if outs < k then L.bVec_r else L.bVec_z
  set ⟨k % outs, Nat.mod_lt k h⟩ i

/-- `GRULayer<T>::operator=` (lstm_eigen.tpp lines 146-150), the same
self-recursive `return *this = GRULayer<T>(other);` as the LSTM one,
modelled with fuel. -/
def gruAssign {ins outs : Nat} :
    Nat → GRULayer ins outs → GRULayer ins outs → Option (GRULayer ins outs)
  | 0, _, _ => none
  | fuel + 1, self, other => gruAssign fuel self (GRULayer.copy other)

/-- State of `RTNeural::Dense1<T>` (src/RTNeural/dense/dense.h, STL backend):
one weight row of `in_size` entries plus one bias scalar.  The raw `T*`
buffer is modelled as a total function; only indices below `in_size` are
ever written or read by the layer. -/
structure Dense1 where
  in_size : Nat
  bias : ℚ
  weights : Nat → ℚ

/-- `Dense1<T>::Dense1(size_t in_size)` (dense.h lines 24-28): the body is
only `weights = new T[in_size];`.  For a fundamental `T` that `new[]`
default-initializes, leaving the array contents indeterminate, and the
member `bias` is never initialized at all.  The indeterminate contents are
modelled as explicit parameters `heapW` (the allocator-provided array
contents) and `heapB` (the garbage value of the `bias` member). -/
def Dense1.new (in_size : Nat) (heapW : Nat → ℚ) (heapB : ℚ) : Dense1 :=
  ⟨in_size, heapB, heapW⟩

/-- `Dense1<T>::setWeights(const T*)` (dense.h lines 37-41): the loop
`for i < in_size: weights[i] = newWeights[i]`. -/
def Dense1.setWeights (d : Dense1) (newWeights : Nat → ℚ) : Dense1 :=
  (List.range d.in_size).foldl
    (fun db j => { db with weights := Function.update db.weights j (newWeights j) }) d

/-- `Dense1<T>::setBias(T b)` (dense.h line 43). -/
def Dense1.setBias (d : Dense1) (b : ℚ) : Dense1 :=
  { d with bias := b }

/-- `Dense1<T>::forward(const T*)` (dense.h lines 32-35):
`std::inner_product(weights, weights + in_size, input, 0) + bias`, i.e. the
left fold `((0 + w0*x0) + w1*x1) + ...` plus the bias. -/
def Dense1.forward (d : Dense1) (input : Nat → ℚ) : ℚ :=
  (List.range d.in_size).foldl (fun acc j => acc + d.weights j * input j) 0 + d.bias

/-- State of `RTNeural::Dense<T>` (dense.h, STL backend): an array of
`out_size` owned `Dense1` sub-layers. -/
structure Dense where
  in_size : Nat
  out_size : Nat
  subLayers : Nat → Dense1

/-- `Dense<T>::Dense(size_t, size_t)` (dense.h lines 60-66): allocates one
`Dense1(in_size)` per output unit; each one receives its own indeterminate
heap contents, modelled by rows of `heapW` and entries of `heapB`. -/
def Dense.new (in_size out_size : Nat) (heapW : Nat → Nat → ℚ) (heapB : Nat → ℚ) : Dense :=
  ⟨in_size, out_size, fun i => Dense1.new in_size (heapW i) (heapB i)⟩

/-- `Dense<T>::Dense(const Dense&)` (dense.h lines 73-76): delegates to the
size constructor with `other.in_size, other.out_size`; the fresh allocations
again carry indeterminate contents. -/
def Dense.copy (other : Dense) (heapW : Nat → Nat → ℚ) (heapB : Nat → ℚ) : Dense :=
  Dense.new other.in_size other.out_size heapW heapB

/-- `Dense<T>::setWeights(const std::vector<std::vector<T>>&)` (dense.h lines
97-101): `for i < out_size: subLayers[i]->setWeights(newWeights[i])`. -/
def Dense.setWeights (D : Dense) (newWeights : Nat → Nat → ℚ) : Dense :=
  (List.range D.out_size).foldl
    (fun Db i =>
      { Db with
        subLayers := Function.update Db.subLayers i
          ((Db.subLayers i).setWeights (newWeights i)) })
    D

/-- `Dense<T>::setBias(T*)` (dense.h lines 109-113):
`for i < out_size: subLayers[i]->setBias(b[i])`. -/
def Dense.setBias (D : Dense) (b : Nat → ℚ) : Dense :=
  (List.range D.out_size).foldl
    (fun Db i =>
      { Db with
        subLayers := Function.update Db.subLayers i ((Db.subLayers i).setBias (b i)) })
    D

/-- `Dense<T>::forward(const T*, T*)` (dense.h lines 91-95):
`for i < out_size: out[i] = subLayers[i]->forward(input)`, writing into the
caller's buffer whose prior contents are `out0`. -/
def Dense.forward (D : Dense) (input out0 : Nat → ℚ) : Nat → ℚ :=
  (List.range D.out_size).foldl
    (fun o i => Function.update o i ((D.subLayers i).forward input)) out0

/-- `Dense<T>::operator=` (dense.h lines 78-81):
`return *this = Dense(other);`, again the self-recursive copy-assignment
with no base case, modelled with fuel (the heap parameters feed the
indeterminate contents of each temporary's allocations). -/
def denseAssign : Nat → Dense → Dense → (Nat → Nat → ℚ) → (Nat → ℚ) → Option Dense
  | 0, _, _, _, _ => none
  | fuel + 1, self, other, hw, hb => denseAssign fuel self (Dense.copy other hw hb) hw hb

/-- STL-backend `softmax(const T*, T*, size_t)` (dense.h lines 372-385): one
pass writing `out[i] = exp(input[i])` while accumulating `exp_sum`, then one
pass dividing each entry by `exp_sum`.  The transcendental `exp` is the
abstract parameter `e`; `out0` is the caller buffer's prior contents. -/
def softmaxSTL (e : ℚ → ℚ) (input out0 : Nat → ℚ) (size : Nat) : Nat → ℚ :=
  let p := (List.range size).foldl
    (fun (acc : (Nat → ℚ) × ℚ) i =>
      (Function.update acc.1 i (e (input i)), acc.2 + e (input i)))
    (out0, (0 : ℚ))
  (List.range size).foldl (fun o i => Function.update o i (o i / p.2)) p.1

/-- xsimd-backend `softmax(const T*, T*, size_t)` (dense.h lines 236-272).
`inc` is the SIMD width `b_type::size` and `vec_size = dim - dim % inc` the
vectorizable prefix.  The vectorized first loop handles one chunk of `inc`
lanes per step: it stores `exp` of the chunk (a SIMD store, modelled as the
simultaneous write of the `inc` lanes) and adds the chunk's horizontal sum
`hadd` (modelled as the finite sum of the lanes) to `exp_sum`; the remainder
loop handles the tail elementwise.  The second pair of loops divides every
entry by the accumulated `exp_sum` in the same chunked fashion. -/
def softmaxXsimd (e : ℚ → ℚ) (inc : Nat) (input out0 : Nat → ℚ) (dim : Nat) : Nat → ℚ :=
  let vec_size := dim - dim % inc
  let p := (List.range (vec_size / inc)).foldl
    (fun (acc : (Nat → ℚ) × ℚ) c =>
      ((fun k => if c * inc ≤ k ∧ k < c * inc + inc then e (input k) else acc.1 k),
        acc.2 + ∑ j ∈ Finset.range inc, e (input (c * inc + j))))
    (out0, (0 : ℚ))
  let q := (List.range' vec_size (dim - vec_size)).foldl
    (fun (acc : (Nat → ℚ) × ℚ) i =>
      (Function.update acc.1 i (e (input i)), acc.2 + e (input i))) p
  let r := (List.range (vec_size / inc)).foldl
    (fun (o : Nat → ℚ) c =>
      fun k => if c * inc ≤ k ∧ k < c * inc + inc then o k / q.2 else o k)
    q.1
  (List.range' vec_size (dim - vec_size)).foldl
    (fun o i => Function.update o i (o i / q.2)) r

/-- Key set of the `tests` map in src/tests/tests.cpp (lines 19-30); the
`std::map<std::string, TestConfig>` has exactly these four keys, modelled as
an enumeration. -/
inductive TestKey
  | conv1d
  | dense
  | gru
  | lstm
deriving DecidableEq

/-- `struct TestConfig` (tests.cpp lines 10-17).  The `double` threshold
literals are modelled by the exact rationals they denote in the source
text. -/
structure TestConfig where
  name : String
  model_file : String
  x_data_file : String
  y_data_file : String
  threshold : ℚ

/-- The `tests` map (tests.cpp lines 19-30). -/
def tests : TestKey → TestConfig
  | TestKey.conv1d =>
      ⟨"CONV1D", "models/conv.json", "test_data/conv_x_python.csv",
        "test_data/conv_y_python.csv", 1 / 1000000⟩
  | TestKey.dense =>
      ⟨"DENSE", "models/dense.json", "test_data/dense_x_python.csv",
        "test_data/dense_y_python.csv", 2 / 100000000⟩
  | TestKey.gru =>
      ⟨"GRU", "models/gru.json", "test_data/gru_x_python.csv",
        "test_data/gru_y_python.csv", 5 / 1000000⟩
  | TestKey.lstm =>
      ⟨"LSTM", "models/lstm.json", "test_data/lstm_x_python.csv",
        "test_data/lstm_y_python.csv", 1 / 1000000⟩

/-- The error-counting loop of `runTest` (tests.cpp lines 68-84): for each
sample index `n`, if `|yData[n] - yRef[n]| > threshold` then increment
`nErrs` and fold the error into `max_error`.  Returns the pair
`(nErrs, max_error)`. -/
def runTestErrs (yData yRef : List ℚ) (t : ℚ) : Nat × ℚ :=
  (List.range yData.length).foldl
    (fun acc n =>
      if t < |yData.getD n 0 - yRef.getD n 0| then (acc.1 + 1, max |yData.getD n 0 - yRef.getD n 0| acc.2)
      else acc)
    (0, 0)

/-- The result code of `runTest` (tests.cpp lines 86-94): `1` when
`nErrs > 0`, otherwise `0`. -/
def runTestResult (yData yRef : List ℚ) (t : ℚ) : Nat :=
  if 0 < (runTestErrs yData yRef t).1 then 1 else 0

/-- Concrete weight fixture for the Dense witness. -/
def wFix : Nat → Nat → ℚ := fun i j => ((i + 2) * (j + 1) : Nat)

/-- Concrete bias fixture for the Dense witness. -/
def bFix : Nat → ℚ := fun i => ((i + 5 : Nat) : ℚ)

/-- Concrete input fixture for the Dense witness. -/
def xFix : Nat → ℚ := fun j => ((j + 1 : Nat) : ℚ)

/-- Concrete stand-in for the abstract exponential in the softmax witness. -/
def eFix : ℚ → ℚ := fun v => v * v + 1

/-- Concrete input fixture for the softmax witness. -/
def sFix : Nat → ℚ := fun k => (k : ℚ) - 2

/-- Concrete combined GRU kernel buffer exhibiting the getter boundary bug:
row `i = 0` holds the values `10, 20, 30` at flat indices `0, 1, 2`. -/
def wBug : Nat → Nat → ℚ := fun _ k => ((10 * (k + 1) : Nat) : ℚ)

/-! ### Generic loop lemmas

Reusable characterizations of the `List.foldl` loops the embedding uses:
a fold whose steps leave a projection unchanged, a fold writing at pairwise
distinct indices, a chunked (SIMD-style) elementwise pass, a contiguous
elementwise pass, and accumulator folds. -/

theorem foldl_invar {α β γ : Type*} (g : α → β → α) (p : α → γ)
    (hg : ∀ a b, p (g a b) = p a) :
    ∀ (l : List β) (a : α), p (l.foldl g a) = p a := by
  intro l
  induction l with
  | nil => intro a; rfl
  | cons b t ih => intro a; rw [List.foldl_cons, ih, hg]

theorem foldl_write_nodup {α β γ : Type*} [DecidableEq β]
    (g : α → β → α) (p : α → β → γ) (F : β → γ → γ)
    (hg : ∀ a b k, p (g a b) k = if k = b then F b (p a b) else p a k) :
    ∀ (l : List β), l.Nodup → ∀ (a : α) (k : β),
      p (l.foldl g a) k = if k ∈ l then F k (p a k) else p a k := by
  intro l
  induction l with
  | nil => intro _ a k; simp
  | cons b t ih =>
    intro hnd a k
    rcases List.nodup_cons.mp hnd with ⟨hb, hnd'⟩
    rw [List.foldl_cons, ih hnd' (g a b) k]
    by_cases hk : k ∈ t
    · have hkb : k ≠ b := fun h => hb (h ▸ hk)
      simp [hk, hg, hkb]
    · by_cases hkb : k = b
      · subst hkb; simp [hk, hg]
      · simp [hk, hkb, hg]

theorem foldl_chunk_map {α : Type*} (inc : Nat) (g : α → Nat → α)
    (p : α → Nat → ℚ) (q : Nat → ℚ → ℚ)
    (hg : ∀ a c k, p (g a c) k =
      if c * inc ≤ k ∧ k < c * inc + inc then q k (p a k) else p a k) :
    ∀ (M : Nat) (a : α) (k : Nat),
      p ((List.range M).foldl g a) k = if k < M * inc then q k (p a k) else p a k := by
  intro M
  induction M with
  | zero => intro a k; simp
  | succ M ih =>
    intro a k
    have hsm : (M + 1) * inc = M * inc + inc := by ring
    rw [List.range_succ, List.foldl_append, List.foldl_cons, List.foldl_nil, hg, ih, hsm]
    by_cases h1 : k < M * inc
    · have h2 : ¬ (M * inc ≤ k) := by omega
      have h3 : k < M * inc + inc := by omega
      simp [h1, h2, h3]
    · by_cases h4 : k < M * inc + inc
      · have h5 : M * inc ≤ k := by omega
        simp [h1, h4, h5]
      · simp [h1, h4]

theorem foldl_seg_update {α : Type*} (g : α → Nat → α) (p : α → Nat → ℚ)
    (q : Nat → ℚ → ℚ)
    (hg : ∀ a i k, p (g a i) k = if k = i then q i (p a i) else p a k) :
    ∀ (len start : Nat) (a : α) (k : Nat),
      p ((List.range' start len).foldl g a) k =
        if start ≤ k ∧ k < start + len then q k (p a k) else p a k := by
  intro len
  induction len with
  | zero =>
    intro start a k
    rw [List.range', List.foldl_nil, if_neg (by omega)]
  | succ len ih =>
    intro start a k
    rw [List.range'_succ, List.foldl_cons, ih]
    by_cases hks : k = start
    · subst hks
      rw [if_neg (by omega), hg, if_pos rfl, if_pos (by omega)]
    · rw [hg, if_neg hks]
      by_cases hseg : start + 1 ≤ k ∧ k < start + 1 + len
      · rw [if_pos hseg, if_pos (by omega)]
      · rw [if_neg hseg, if_neg (by omega)]

theorem foldl_snd_add {α β : Type*} (g : α × ℚ → β → α × ℚ) (f : β → ℚ)
    (hg : ∀ a b, (g a b).2 = a.2 + f b) :
    ∀ (l : List β) (a : α × ℚ), (l.foldl g a).2 = a.2 + (l.map f).sum := by
  intro l
  induction l with
  | nil => intro a; simp
  | cons b t ih =>
    intro a
    rw [List.foldl_cons, ih, hg, List.map_cons, List.sum_cons]
    ring

theorem foldl_add_eq (f : Nat → ℚ) :
    ∀ (n : Nat) (c : ℚ),
      (List.range n).foldl (fun acc j => acc + f j) c = c + ∑ j ∈ Finset.range n, f j := by
  intro n
  induction n with
  | zero => intro c; simp
  | succ n ih =>
    intro c
    rw [List.range_succ, List.foldl_append, List.foldl_cons, List.foldl_nil, ih,
      Finset.sum_range_succ]
    ring

theorem list_range_map_sum (f : Nat → ℚ) :
    ∀ n : Nat, ((List.range n).map f).sum = ∑ j ∈ Finset.range n, f j := by
  intro n
  induction n with
  | zero => simp
  | succ n ih =>
    rw [List.range_succ, List.map_append, List.sum_append, Finset.sum_range_succ, ih]
    simp

theorem list_range'_map_sum (f : Nat → ℚ) :
    ∀ (len start : Nat),
      ((List.range' start len).map f).sum = ∑ j ∈ Finset.range len, f (start + j) := by
  intro len
  induction len with
  | zero => intro start; simp
  | succ len ih =>
    intro start
    rw [List.range'_succ, List.map_cons, List.sum_cons, ih, Finset.sum_range_succ']
    simp only [Nat.add_zero]
    rw [add_comm _ (f start)]
    congr 1
    apply Finset.sum_congr rfl
    intro j _
    congr 1
    omega

theorem sum_range_add_block (f : Nat → ℚ) (a : Nat) :
    ∀ b : Nat,
      ∑ i ∈ Finset.range (a + b), f i =
        (∑ i ∈ Finset.range a, f i) + ∑ j ∈ Finset.range b, f (a + j) := by
  intro b
  induction b with
  | zero => simp
  | succ b ih =>
    have h : a + (b + 1) = (a + b) + 1 := by omega
    rw [h, Finset.sum_range_succ, ih, Finset.sum_range_succ]
    ring

theorem sum_blocks (f : Nat → ℚ) (inc : Nat) :
    ∀ M : Nat,
      ∑ c ∈ Finset.range M, (∑ j ∈ Finset.range inc, f (c * inc + j)) =
        ∑ k ∈ Finset.range (M * inc), f k := by
  intro M
  induction M with
  | zero => simp
  | succ M ih =>
    rw [Finset.sum_range_succ, ih, Nat.succ_mul, sum_range_add_block]

/-- A doubly nested loop `for i < n, for k < m` whose `(i, k)` iteration
writes exactly entry `(k, i)` of the matrix selected by `sel` ends with
every entry holding its written value. -/
theorem nested_write_fullchar {α : Type*} {m n : Nat}
    (G : α → Fin n → Fin m → α) (sel : α → Fin m → Fin n → ℚ) (f : Fin n → Fin m → ℚ)
    (hG : ∀ a i k, sel (G a i k) = writeEntry (sel a) k i (f i k)) :
    ∀ (a : α) (k : Fin m) (i : Fin n),
      sel ((List.finRange n).foldl
        (fun b i0 => (List.finRange m).foldl (fun c k0 => G c i0 k0) b) a) k i = f i k := by
  intro a k i
  have hcol : ∀ (i0 : Fin n) (b : α) (k' : Fin m),
      sel ((List.finRange m).foldl (fun c k0 => G c i0 k0) b) k' i0 = f i0 k' := by
    intro i0 b k'
    have h := foldl_write_nodup (fun c k0 => G c i0 k0)
      (fun c k'' => sel c k'' i0) (fun k'' _ => f i0 k'')
      (by
        intro c k0 k''
        simp [hG, writeEntry])
      (List.finRange m) (List.nodup_finRange m) b k'
    simpa [List.mem_finRange] using h
  have hother : ∀ (i0 : Fin n) (b : α) (k' : Fin m) (i' : Fin n), i' ≠ i0 →
      sel ((List.finRange m).foldl (fun c k0 => G c i0 k0) b) k' i' = sel b k' i' :=
    fun i0 b k' i' hne =>
      foldl_invar (fun c k0 => G c i0 k0) (fun c => sel c k' i')
        (by
          intro c k0
          simp [hG, writeEntry, hne])
        (List.finRange m) b
  have houter := foldl_write_nodup
    (fun b i0 => (List.finRange m).foldl (fun c k0 => G c i0 k0) b)
    (fun b i' => fun k' => sel b k' i')
    (fun i' _ => fun k' => f i' k')
    (by
      intro b i0 i'
      by_cases hii : i' = i0
      · subst hii
        rw [if_pos rfl]
        funext k'
        exact hcol i' b k'
      · rw [if_neg hii]
        funext k'
        exact hother i0 b k' i' hii)
    (List.finRange n) (List.nodup_finRange n) a i
  rw [if_pos (List.mem_finRange i)] at houter
  exact congrFun houter k

/-! ### Characterization of the weight-loading setters -/

theorem lstm_setW_Wi {ins outs : Nat} (L : LSTMLayer ins outs) (w : Nat → Nat → ℚ)
    (k : Fin outs) (i : Fin ins) :
    (L.setWVals w).Wi k i = w i.val k.val :=
  nested_write_fullchar (fun c i0 k0 => lstmSetWStep w c i0 k0)
    (fun c => c.Wi) (fun i0 k0 => w i0.val k0.val) (fun _ _ _ => rfl) L k i

theorem lstm_setW_Wf {ins outs : Nat} (L : LSTMLayer ins outs) (w : Nat → Nat → ℚ)
    (k : Fin outs) (i : Fin ins) :
    (L.setWVals w).Wf k i = w i.val (k.val + outs) :=
  nested_write_fullchar (fun c i0 k0 => lstmSetWStep w c i0 k0)
    (fun c => c.Wf) (fun i0 k0 => w i0.val (k0.val + outs)) (fun _ _ _ => rfl) L k i

theorem lstm_setW_Wc {ins outs : Nat} (L : LSTMLayer ins outs) (w : Nat → Nat → ℚ)
    (k : Fin outs) (i : Fin ins) :
    (L.setWVals w).Wc k i = w i.val (k.val + outs * 2) :=
  nested_write_fullchar (fun c i0 k0 => lstmSetWStep w c i0 k0)
    (fun c => c.Wc) (fun i0 k0 => w i0.val (k0.val + outs * 2)) (fun _ _ _ => rfl) L k i

theorem lstm_setW_Wo {ins outs : Nat} (L : LSTMLayer ins outs) (w : Nat → Nat → ℚ)
    (k : Fin outs) (i : Fin ins) :
    (L.setWVals w).Wo k i = w i.val (k.val + outs * 3) :=
  nested_write_fullchar (fun c i0 k0 => lstmSetWStep w c i0 k0)
    (fun c => c.Wo) (fun i0 k0 => w i0.val (k0.val + outs * 3)) (fun _ _ _ => rfl) L k i

theorem lstm_setU_Ui {ins outs : Nat} (L : LSTMLayer ins outs) (u : Nat → Nat → ℚ)
    (k : Fin outs) (i : Fin outs) :
    (L.setUVals u).Ui k i = u i.val k.val :=
  nested_write_fullchar (fun c i0 k0 => lstmSetUStep u c i0 k0)
    (fun c => c.Ui) (fun i0 k0 => u i0.val k0.val) (fun _ _ _ => rfl) L k i

theorem lstm_setU_Uf {ins outs : Nat} (L : LSTMLayer ins outs) (u : Nat → Nat → ℚ)
    (k : Fin outs) (i : Fin outs) :
    (L.setUVals u).Uf k i = u i.val (k.val + outs) :=
  nested_write_fullchar (fun c i0 k0 => lstmSetUStep u c i0 k0)
    (fun c => c.Uf) (fun i0 k0 => u i0.val (k0.val + outs)) (fun _ _ _ => rfl) L k i

theorem lstm_setU_Uc {ins outs : Nat} (L : LSTMLayer ins outs) (u : Nat → Nat → ℚ)
    (k : Fin outs) (i : Fin outs) :
    (L.setUVals u).Uc k i = u i.val (k.val + outs * 2) :=
  nested_write_fullchar (fun c i0 k0 => lstmSetUStep u c i0 k0)
    (fun c => c.Uc) (fun i0 k0 => u i0.val (k0.val + outs * 2)) (fun _ _ _ => rfl) L k i

theorem lstm_setU_Uo {ins outs : Nat} (L : LSTMLayer ins outs) (u : Nat → Nat → ℚ)
    (k : Fin outs) (i : Fin outs) :
    (L.setUVals u).Uo k i = u i.val (k.val + outs * 3) :=
  nested_write_fullchar (fun c i0 k0 => lstmSetUStep u c i0 k0)
    (fun c => c.Uo) (fun i0 k0 => u i0.val (k0.val + outs * 3)) (fun _ _ _ => rfl) L k i

theorem lstm_setB_bi {ins outs : Nat} (L : LSTMLayer ins outs) (b : Nat → ℚ)
    (k : Fin outs) : (L.setBVals b).bi k = b k.val := by
  have h := foldl_write_nodup (fun c k0 => lstmSetBStep b c k0)
    (fun c => c.bi) (fun k0 _ => b k0.val)
    (by intro c k0 k1; simp [lstmSetBStep, Function.update_apply])
    (List.finRange outs) (List.nodup_finRange outs) L k
  simpa [List.mem_finRange] using h

theorem lstm_setB_bf {ins outs : Nat} (L : LSTMLayer ins outs) (b : Nat → ℚ)
    (k : Fin outs) : (L.setBVals b).bf k = b (k.val + outs) := by
  have h := foldl_write_nodup (fun c k0 => lstmSetBStep b c k0)
    (fun c => c.bf) (fun k0 _ => b (k0.val + outs))
    (by intro c k0 k1; simp [lstmSetBStep, Function.update_apply])
    (List.finRange outs) (List.nodup_finRange outs) L k
  simpa [List.mem_finRange] using h

theorem lstm_setB_bc {ins outs : Nat} (L : LSTMLayer ins outs) (b : Nat → ℚ)
    (k : Fin outs) : (L.setBVals b).bc k = b (k.val + outs * 2) := by
  have h := foldl_write_nodup (fun c k0 => lstmSetBStep b c k0)
    (fun c => c.bc) (fun k0 _ => b (k0.val + outs * 2))
    (by intro c k0 k1; simp [lstmSetBStep, Function.update_apply])
    (List.finRange outs) (List.nodup_finRange outs) L k
  simpa [List.mem_finRange] using h

theorem lstm_setB_bo {ins outs : Nat} (L : LSTMLayer ins outs) (b : Nat → ℚ)
    (k : Fin outs) : (L.setBVals b).bo k = b (k.val + outs * 3) := by
  have h := foldl_write_nodup (fun c k0 => lstmSetBStep b c k0)
    (fun c => c.bo) (fun k0 _ => b (k0.val + outs * 3))
    (by intro c k0 k1; simp [lstmSetBStep, Function.update_apply])
    (List.finRange outs) (List.nodup_finRange outs) L k
  simpa [List.mem_finRange] using h

theorem gru_setW_z {ins outs : Nat} (L : GRULayer ins outs) (w : Nat → Nat → ℚ)
    (k : Fin outs) (i : Fin ins) :
    (L.setWVals w).wVec_z k i = w i.val k.val :=
  nested_write_fullchar (fun c i0 k0 => gruSetWStep w c i0 k0)
    (fun c => c.wVec_z) (fun i0 k0 => w i0.val k0.val) (fun _ _ _ => rfl) L k i

theorem gru_setW_r {ins outs : Nat} (L : GRULayer ins outs) (w : Nat → Nat → ℚ)
    (k : Fin outs) (i : Fin ins) :
    (L.setWVals w).wVec_r k i = w i.val (k.val + outs) :=
  nested_write_fullchar (fun c i0 k0 => gruSetWStep w c i0 k0)
    (fun c => c.wVec_r) (fun i0 k0 => w i0.val (k0.val + outs)) (fun _ _ _ => rfl) L k i

theorem gru_setW_c {ins outs : Nat} (L : GRULayer ins outs) (w : Nat → Nat → ℚ)
    (k : Fin outs) (i : Fin ins) :
    (L.setWVals w).wVec_c k i = w i.val (k.val + outs * 2) :=
  nested_write_fullchar (fun c i0 k0 => gruSetWStep w c i0 k0)
    (fun c => c.wVec_c) (fun i0 k0 => w i0.val (k0.val + outs * 2)) (fun _ _ _ => rfl) L k i

theorem gru_setU_z {ins outs : Nat} (L : GRULayer ins outs) (u : Nat → Nat → ℚ)
    (k : Fin outs) (i : Fin outs) :
    (L.setUVals u).uVec_z k i = u i.val k.val :=
  nested_write_fullchar (fun c i0 k0 => gruSetUStep u c i0 k0)
    (fun c => c.uVec_z) (fun i0 k0 => u i0.val k0.val) (fun _ _ _ => rfl) L k i

theorem gru_setU_r {ins outs : Nat} (L : GRULayer ins outs) (u : Nat → Nat → ℚ)
    (k : Fin outs) (i : Fin outs) :
    (L.setUVals u).uVec_r k i = u i.val (k.val + outs) :=
  nested_write_fullchar (fun c i0 k0 => gruSetUStep u c i0 k0)
    (fun c => c.uVec_r) (fun i0 k0 => u i0.val (k0.val + outs)) (fun _ _ _ => rfl) L k i

theorem gru_setU_c {ins outs : Nat} (L : GRULayer ins outs) (u : Nat → Nat → ℚ)
    (k : Fin outs) (i : Fin outs) :
    (L.setUVals u).uVec_c k i = u i.val (k.val + outs * 2) :=
  nested_write_fullchar (fun c i0 k0 => gruSetUStep u c i0 k0)
    (fun c => c.uVec_c) (fun i0 k0 => u i0.val (k0.val + outs * 2)) (fun _ _ _ => rfl) L k i

theorem gru_setB_z {ins outs : Nat} (L : GRULayer ins outs) (b : Nat → Nat → ℚ)
    (k : Fin outs) (i : Fin 2) :
    (L.setBVals b).bVec_z k i = b i.val k.val :=
  nested_write_fullchar (fun c i0 k0 => gruSetBStep b c i0 k0)
    (fun c => c.bVec_z) (fun i0 k0 => b i0.val k0.val) (fun _ _ _ => rfl) L k i

theorem gru_setB_r {ins outs : Nat} (L : GRULayer ins outs) (b : Nat → Nat → ℚ)
    (k : Fin outs) (i : Fin 2) :
    (L.setBVals b).bVec_r k i = b i.val (k.val + outs) :=
  nested_write_fullchar (fun c i0 k0 => gruSetBStep b c i0 k0)
    (fun c => c.bVec_r) (fun i0 k0 => b i0.val (k0.val + outs)) (fun _ _ _ => rfl) L k i

theorem gru_setB_c {ins outs : Nat} (L : GRULayer ins outs) (b : Nat → Nat → ℚ)
    (k : Fin outs) (i : Fin 2) :
    (L.setBVals b).bVec_c k i = b i.val (k.val + outs * 2) :=
  nested_write_fullchar (fun c i0 k0 => gruSetBStep b c i0 k0)
    (fun c => c.bVec_c) (fun i0 k0 => b i0.val (k0.val + outs * 2)) (fun _ _ _ => rfl) L k i

/-! ### Frame lemmas: the setters leave the recurrent state untouched and
`forward` leaves the loaded weights untouched -/

theorem lstm_setW_ht1 {ins outs : Nat} (L : LSTMLayer ins outs) (w : Nat → Nat → ℚ) :
    (L.setWVals w).ht1 = L.ht1 :=
  foldl_invar (fun La i => (List.finRange outs).foldl (fun Lb k => lstmSetWStep w Lb i k) La)
    (fun c => c.ht1)
    (fun a i => foldl_invar (fun Lb k => lstmSetWStep w Lb i k) (fun c => c.ht1)
      (fun _ _ => rfl) (List.finRange outs) a)
    (List.finRange ins) L

theorem lstm_setW_ct1 {ins outs : Nat} (L : LSTMLayer ins outs) (w : Nat → Nat → ℚ) :
    (L.setWVals w).ct1 = L.ct1 :=
  foldl_invar (fun La i => (List.finRange outs).foldl (fun Lb k => lstmSetWStep w Lb i k) La)
    (fun c => c.ct1)
    (fun a i => foldl_invar (fun Lb k => lstmSetWStep w Lb i k) (fun c => c.ct1)
      (fun _ _ => rfl) (List.finRange outs) a)
    (List.finRange ins) L

theorem lstm_setW_inVec {ins outs : Nat} (L : LSTMLayer ins outs) (w : Nat → Nat → ℚ) :
    (L.setWVals w).inVec = L.inVec :=
  foldl_invar (fun La i => (List.finRange outs).foldl (fun Lb k => lstmSetWStep w Lb i k) La)
    (fun c => c.inVec)
    (fun a i => foldl_invar (fun Lb k => lstmSetWStep w Lb i k) (fun c => c.inVec)
      (fun _ _ => rfl) (List.finRange outs) a)
    (List.finRange ins) L

theorem lstm_setU_ht1 {ins outs : Nat} (L : LSTMLayer ins outs) (u : Nat → Nat → ℚ) :
    (L.setUVals u).ht1 = L.ht1 :=
  foldl_invar (fun La i => (List.finRange outs).foldl (fun Lb k => lstmSetUStep u Lb i k) La)
    (fun c => c.ht1)
    (fun a i => foldl_invar (fun Lb k => lstmSetUStep u Lb i k) (fun c => c.ht1)
      (fun _ _ => rfl) (List.finRange outs) a)
    (List.finRange outs) L

theorem lstm_setU_ct1 {ins outs : Nat} (L : LSTMLayer ins outs) (u : Nat → Nat → ℚ) :
    (L.setUVals u).ct1 = L.ct1 :=
  foldl_invar (fun La i => (List.finRange outs).foldl (fun Lb k => lstmSetUStep u Lb i k) La)
    (fun c => c.ct1)
    (fun a i => foldl_invar (fun Lb k => lstmSetUStep u Lb i k) (fun c => c.ct1)
      (fun _ _ => rfl) (List.finRange outs) a)
    (List.finRange outs) L

theorem lstm_setU_inVec {ins outs : Nat} (L : LSTMLayer ins outs) (u : Nat → Nat → ℚ) :
    (L.setUVals u).inVec = L.inVec :=
  foldl_invar (fun La i => (List.finRange outs).foldl (fun Lb k => lstmSetUStep u Lb i k) La)
    (fun c => c.inVec)
    (fun a i => foldl_invar (fun Lb k => lstmSetUStep u Lb i k) (fun c => c.inVec)
      (fun _ _ => rfl) (List.finRange outs) a)
    (List.finRange outs) L

theorem lstm_setB_ht1 {ins outs : Nat} (L : LSTMLayer ins outs) (b : Nat → ℚ) :
    (L.setBVals b).ht1 = L.ht1 :=
  foldl_invar (fun Lb k => lstmSetBStep b Lb k) (fun c => c.ht1) (fun _ _ => rfl)
    (List.finRange outs) L

theorem lstm_setB_ct1 {ins outs : Nat} (L : LSTMLayer ins outs) (b : Nat → ℚ) :
    (L.setBVals b).ct1 = L.ct1 :=
  foldl_invar (fun Lb k => lstmSetBStep b Lb k) (fun c => c.ct1) (fun _ _ => rfl)
    (List.finRange outs) L

theorem lstm_setB_inVec {ins outs : Nat} (L : LSTMLayer ins outs) (b : Nat → ℚ) :
    (L.setBVals b).inVec = L.inVec :=
  foldl_invar (fun Lb k => lstmSetBStep b Lb k) (fun c => c.inVec) (fun _ _ => rfl)
    (List.finRange outs) L

theorem lstm_run_Wf {ins outs : Nat} (sig th : ℚ → ℚ) (L : LSTMLayer ins outs)
    (xs : List (Fin ins → ℚ)) : (LSTMLayer.runSeq sig th L xs).Wf = L.Wf :=
  foldl_invar (fun La xi => (LSTMLayer.forward sig th La xi).2) (fun c => c.Wf)
    (fun _ _ => rfl) xs L

theorem lstm_run_Wi {ins outs : Nat} (sig th : ℚ → ℚ) (L : LSTMLayer ins outs)
    (xs : List (Fin ins → ℚ)) : (LSTMLayer.runSeq sig th L xs).Wi = L.Wi :=
  foldl_invar (fun La xi => (LSTMLayer.forward sig th La xi).2) (fun c => c.Wi)
    (fun _ _ => rfl) xs L

theorem lstm_run_Wo {ins outs : Nat} (sig th : ℚ → ℚ) (L : LSTMLayer ins outs)
    (xs : List (Fin ins → ℚ)) : (LSTMLayer.runSeq sig th L xs).Wo = L.Wo :=
  foldl_invar (fun La xi => (LSTMLayer.forward sig th La xi).2) (fun c => c.Wo)
    (fun _ _ => rfl) xs L

theorem lstm_run_Wc {ins outs : Nat} (sig th : ℚ → ℚ) (L : LSTMLayer ins outs)
    (xs : List (Fin ins → ℚ)) : (LSTMLayer.runSeq sig th L xs).Wc = L.Wc :=
  foldl_invar (fun La xi => (LSTMLayer.forward sig th La xi).2) (fun c => c.Wc)
    (fun _ _ => rfl) xs L

theorem lstm_run_Uf {ins outs : Nat} (sig th : ℚ → ℚ) (L : LSTMLayer ins outs)
    (xs : List (Fin ins → ℚ)) : (LSTMLayer.runSeq sig th L xs).Uf = L.Uf :=
  foldl_invar (fun La xi => (LSTMLayer.forward sig th La xi).2) (fun c => c.Uf)
    (fun _ _ => rfl) xs L

theorem lstm_run_Ui {ins outs : Nat} (sig th : ℚ → ℚ) (L : LSTMLayer ins outs)
    (xs : List (Fin ins → ℚ)) : (LSTMLayer.runSeq sig th L xs).Ui = L.Ui :=
  foldl_invar (fun La xi => (LSTMLayer.forward sig th La xi).2) (fun c => c.Ui)
    (fun _ _ => rfl) xs L

theorem lstm_run_Uo {ins outs : Nat} (sig th : ℚ → ℚ) (L : LSTMLayer ins outs)
    (xs : List (Fin ins → ℚ)) : (LSTMLayer.runSeq sig th L xs).Uo = L.Uo :=
  foldl_invar (fun La xi => (LSTMLayer.forward sig th La xi).2) (fun c => c.Uo)
    (fun _ _ => rfl) xs L

theorem lstm_run_Uc {ins outs : Nat} (sig th : ℚ → ℚ) (L : LSTMLayer ins outs)
    (xs : List (Fin ins → ℚ)) : (LSTMLayer.runSeq sig th L xs).Uc = L.Uc :=
  foldl_invar (fun La xi => (LSTMLayer.forward sig th La xi).2) (fun c => c.Uc)
    (fun _ _ => rfl) xs L

theorem lstm_run_bf {ins outs : Nat} (sig th : ℚ → ℚ) (L : LSTMLayer ins outs)
    (xs : List (Fin ins → ℚ)) : (LSTMLayer.runSeq sig th L xs).bf = L.bf :=
  foldl_invar (fun La xi => (LSTMLayer.forward sig th La xi).2) (fun c => c.bf)
    (fun _ _ => rfl) xs L

theorem lstm_run_bi {ins outs : Nat} (sig th : ℚ → ℚ) (L : LSTMLayer ins outs)
    (xs : List (Fin ins → ℚ)) : (LSTMLayer.runSeq sig th L xs).bi = L.bi :=
  foldl_invar (fun La xi => (LSTMLayer.forward sig th La xi).2) (fun c => c.bi)
    (fun _ _ => rfl) xs L

theorem lstm_run_bo {ins outs : Nat} (sig th : ℚ → ℚ) (L : LSTMLayer ins outs)
    (xs : List (Fin ins → ℚ)) : (LSTMLayer.runSeq sig th L xs).bo = L.bo :=
  foldl_invar (fun La xi => (LSTMLayer.forward sig th La xi).2) (fun c => c.bo)
    (fun _ _ => rfl) xs L

theorem lstm_run_bc {ins outs : Nat} (sig th : ℚ → ℚ) (L : LSTMLayer ins outs)
    (xs : List (Fin ins → ℚ)) : (LSTMLayer.runSeq sig th L xs).bc = L.bc :=
  foldl_invar (fun La xi => (LSTMLayer.forward sig th La xi).2) (fun c => c.bc)
    (fun _ _ => rfl) xs L

theorem lstm_run_inVec {ins outs : Nat} (sig th : ℚ → ℚ) (L : LSTMLayer ins outs)
    (xs : List (Fin ins → ℚ)) : (LSTMLayer.runSeq sig th L xs).inVec = L.inVec :=
  foldl_invar (fun La xi => (LSTMLayer.forward sig th La xi).2) (fun c => c.inVec)
    (fun _ _ => rfl) xs L

/-- The per-step LSTM update reads only the kernels, biases, `inVec` and the
persistent state; two layers agreeing on those produce identical `forward`
results (output and updated layer). -/
theorem lstm_forward_congr {ins outs : Nat} (sig th : ℚ → ℚ)
    (L1 L2 : LSTMLayer ins outs) (x : Fin ins → ℚ)
    (h1 : L1.Wf = L2.Wf) (h2 : L1.Wi = L2.Wi) (h3 : L1.Wo = L2.Wo) (h4 : L1.Wc = L2.Wc)
    (h5 : L1.Uf = L2.Uf) (h6 : L1.Ui = L2.Ui) (h7 : L1.Uo = L2.Uo) (h8 : L1.Uc = L2.Uc)
    (h9 : L1.bf = L2.bf) (h10 : L1.bi = L2.bi) (h11 : L1.bo = L2.bo) (h12 : L1.bc = L2.bc)
    (h13 : L1.inVec = L2.inVec) (h14 : L1.ht1 = L2.ht1) (h15 : L1.ct1 = L2.ct1) :
    LSTMLayer.forward sig th L1 x = LSTMLayer.forward sig th L2 x := by
  cases L1
  cases L2
  dsimp only at h1 h2 h3 h4 h5 h6 h7 h8 h9 h10 h11 h12 h13 h14 h15
  subst_vars
  rfl

/-! ### Claim theorems (with their witnesses and counterexamples) -/

/-- C1: the LSTM weight-loading setters slice the combined per-gate buffer in
the fixed gate order input, forget, cell, output: for every `in_size`,
`out_size`, every row index `i` and every `k < out_size`, `setWVals` stores
`wVals[i][k]` into `Wi`, `wVals[i][k + out_size]` into `Wf`,
`wVals[i][k + 2*out_size]` into `Wc` and `wVals[i][k + 3*out_size]` into
`Wo`; `setUVals` and `setBVals` use the same offsets
`0, out_size, 2*out_size, 3*out_size`. -/
theorem lstm_set_gate_slicing (ins outs : Nat) (L : LSTMLayer ins outs)
    (w u : Nat → Nat → ℚ) (b : Nat → ℚ) (i : Fin ins) (j : Fin outs) (k : Fin outs) :
    ((L.setWVals w).Wi k i = w i.val k.val
      ∧ (L.setWVals w).Wf k i = w i.val (k.val + outs)
      ∧ (L.setWVals w).Wc k i = w i.val (k.val + 2 * outs)
      ∧ (L.setWVals w).Wo k i = w i.val (k.val + 3 * outs))
    ∧ ((L.setUVals u).Ui k j = u j.val k.val
      ∧ (L.setUVals u).Uf k j = u j.val (k.val + outs)
      ∧ (L.setUVals u).Uc k j = u j.val (k.val + 2 * outs)
      ∧ (L.setUVals u).Uo k j = u j.val (k.val + 3 * outs))
    ∧ ((L.setBVals b).bi k = b k.val
      ∧ (L.setBVals b).bf k = b (k.val + outs)
      ∧ (L.setBVals b).bc k = b (k.val + 2 * outs)
      ∧ (L.setBVals b).bo k = b (k.val + 3 * outs)) := by
  refine ⟨⟨?_, ?_, ?_, ?_⟩, ⟨?_, ?_, ?_, ?_⟩, ?_, ?_, ?_, ?_⟩
  · exact lstm_setW_Wi L w k i
  · exact lstm_setW_Wf L w k i
  · rw [lstm_setW_Wc L w k i]; ring_nf
  · rw [lstm_setW_Wo L w k i]; ring_nf
  · exact lstm_setU_Ui L u k j
  · exact lstm_setU_Uf L u k j
  · rw [lstm_setU_Uc L u k j]; ring_nf
  · rw [lstm_setU_Uo L u k j]; ring_nf
  · exact lstm_setB_bi L b k
  · exact lstm_setB_bf L b k
  · rw [lstm_setB_bc L b k]; ring_nf
  · rw [lstm_setB_bo L b k]; ring_nf

/-- C2: the GRU weight-loading setters slice the combined per-gate buffer in
the fixed gate order update, reset, candidate: `setWVals` stores `wVals[i][k]`
into the update-gate kernel, `wVals[i][k + out_size]` into the reset-gate
kernel and `wVals[i][k + 2*out_size]` into the candidate-gate kernel, and
`setUVals` and `setBVals` use the same offsets `0, out_size, 2*out_size`. -/
theorem gru_set_gate_slicing (ins outs : Nat) (L : GRULayer ins outs)
    (w u b : Nat → Nat → ℚ) (i : Fin ins) (j : Fin outs) (i2 : Fin 2) (k : Fin outs) :
    ((L.setWVals w).wVec_z k i = w i.val k.val
      ∧ (L.setWVals w).wVec_r k i = w i.val (k.val + outs)
      ∧ (L.setWVals w).wVec_c k i = w i.val (k.val + 2 * outs))
    ∧ ((L.setUVals u).uVec_z k j = u j.val k.val
      ∧ (L.setUVals u).uVec_r k j = u j.val (k.val + outs)
      ∧ (L.setUVals u).uVec_c k j = u j.val (k.val + 2 * outs))
    ∧ ((L.setBVals b).bVec_z k i2 = b i2.val k.val
      ∧ (L.setBVals b).bVec_r k i2 = b i2.val (k.val + outs)
      ∧ (L.setBVals b).bVec_c k i2 = b i2.val (k.val + 2 * outs)) := by
  refine ⟨⟨?_, ?_, ?_⟩, ⟨?_, ?_, ?_⟩, ?_, ?_, ?_⟩
  · exact gru_setW_z L w k i
  · exact gru_setW_r L w k i
  · rw [gru_setW_c L w k i]; ring_nf
  · exact gru_setU_z L u k j
  · exact gru_setU_r L u k j
  · rw [gru_setU_c L u k j]; ring_nf
  · exact gru_setB_z L b k i2
  · exact gru_setB_r L b k i2
  · rw [gru_setB_c L b k i2]; ring_nf

/-- C3: for an LSTM layer with any loaded weights and any history of prior
`forward` calls, `reset` restores the hidden state and the cell state to
exactly zero, and `reset` followed by `forward x` produces the same result
(same output and same updated layer) as `forward x` on a just-constructed,
identically configured layer.  The nonlinearities are arbitrary, so this
holds in particular for the real sigmoid and tanh. -/
theorem lstm_reset_state_purity (ins outs : Nat) (sig th : ℚ → ℚ)
    (w u : Nat → Nat → ℚ) (b : Nat → ℚ) (xs : List (Fin ins → ℚ)) (x : Fin ins → ℚ) :
    ((LSTMLayer.runSeq sig th (LSTMLayer.configure ins outs w u b) xs).reset.ht1
        = fun _ => 0)
    ∧ ((LSTMLayer.runSeq sig th (LSTMLayer.configure ins outs w u b) xs).reset.ct1
        = fun _ => 0)
    ∧ LSTMLayer.forward sig th
        ((LSTMLayer.runSeq sig th (LSTMLayer.configure ins outs w u b) xs).reset) x
      = LSTMLayer.forward sig th (LSTMLayer.configure ins outs w u b) x := by
  refine ⟨rfl, rfl, ?_⟩
  apply lstm_forward_congr <;>
    simp [LSTMLayer.reset, LSTMLayer.configure, LSTMLayer.new,
      lstm_run_Wf, lstm_run_Wi, lstm_run_Wo, lstm_run_Wc,
      lstm_run_Uf, lstm_run_Ui, lstm_run_Uo, lstm_run_Uc,
      lstm_run_bf, lstm_run_bi, lstm_run_bo, lstm_run_bc, lstm_run_inVec,
      lstm_setW_ht1, lstm_setW_ct1, lstm_setW_inVec,
      lstm_setU_ht1, lstm_setU_ct1, lstm_setU_inVec,
      lstm_setB_ht1, lstm_setB_ct1, lstm_setB_inVec]

/-- C7: the copy constructors of Dense, LSTM and GRU copy only the shape
`(in_size, out_size)`: for every source layer, whatever its loaded weights,
the copy equals a freshly constructed layer of the same sizes (for Dense,
with whatever indeterminate contents the fresh allocations carry), and in
particular the Eigen copies' kernels are all zero, independent of the
source's kernels. -/
theorem copy_ctor_shape_only (ins outs : Nat) (d : Dense) (l : LSTMLayer ins outs)
    (g : GRULayer ins outs) (hw : Nat → Nat → ℚ) (hb : Nat → ℚ) :
    Dense.copy d hw hb = Dense.new d.in_size d.out_size hw hb
    ∧ LSTMLayer.copy l = LSTMLayer.new ins outs
    ∧ GRULayer.copy g = GRULayer.new ins outs
    ∧ (LSTMLayer.copy l).Wi = (fun _ _ => 0)
    ∧ (LSTMLayer.copy l).ht1 = (fun _ => 0)
    ∧ (GRULayer.copy g).wVec_z = (fun _ _ => 0)
    ∧ (GRULayer.copy g).ht1 = (fun _ => 0) :=
  ⟨rfl, rfl, rfl, rfl, rfl, rfl, rfl⟩

/-! ### Dense layer lemmas -/

theorem dense1_setW_in_size (d : Dense1) (nw : Nat → ℚ) :
    (d.setWeights nw).in_size = d.in_size :=
  foldl_invar (fun db j => { db with weights := Function.update db.weights j (nw j) })
    (fun c => c.in_size) (fun _ _ => rfl) (List.range d.in_size) d

theorem dense1_setW_bias (d : Dense1) (nw : Nat → ℚ) :
    (d.setWeights nw).bias = d.bias :=
  foldl_invar (fun db j => { db with weights := Function.update db.weights j (nw j) })
    (fun c => c.bias) (fun _ _ => rfl) (List.range d.in_size) d

theorem dense1_setW_weights (d : Dense1) (nw : Nat → ℚ) (j : Nat) :
    (d.setWeights nw).weights j = if j < d.in_size then nw j else d.weights j := by
  have h := foldl_write_nodup
    (fun db j0 => { db with weights := Function.update db.weights j0 (nw j0) })
    (fun c => c.weights) (fun j0 _ => nw j0)
    (by intro a j0 j1; simp [Function.update_apply])
    (List.range d.in_size) (List.nodup_range d.in_size) d j
  simpa [List.mem_range] using h

theorem dense_setW_out_size (D : Dense) (nw : Nat → Nat → ℚ) :
    (D.setWeights nw).out_size = D.out_size :=
  foldl_invar
    (fun Db i =>
      { Db with
        subLayers := Function.update Db.subLayers i
          ((Db.subLayers i).setWeights (nw i)) })
    (fun c => c.out_size) (fun _ _ => rfl) (List.range D.out_size) D

theorem dense_setW_subLayers (D : Dense) (nw : Nat → Nat → ℚ) (i : Nat) :
    (D.setWeights nw).subLayers i =
      if i < D.out_size then (D.subLayers i).setWeights (nw i) else D.subLayers i := by
  have h := foldl_write_nodup
    (fun Db i0 =>
      { Db with
        subLayers := Function.update Db.subLayers i0
          ((Db.subLayers i0).setWeights (nw i0)) })
    (fun c => c.subLayers) (fun i0 d1 => d1.setWeights (nw i0))
    (by intro a i0 i1; simp [Function.update_apply])
    (List.range D.out_size) (List.nodup_range D.out_size) D i
  simpa [List.mem_range] using h

theorem dense_setB_out_size (D : Dense) (b : Nat → ℚ) :
    (D.setBias b).out_size = D.out_size :=
  foldl_invar
    (fun Db i =>
      { Db with
        subLayers := Function.update Db.subLayers i ((Db.subLayers i).setBias (b i)) })
    (fun c => c.out_size) (fun _ _ => rfl) (List.range D.out_size) D

theorem dense_setB_subLayers (D : Dense) (b : Nat → ℚ) (i : Nat) :
    (D.setBias b).subLayers i =
      if i < D.out_size then (D.subLayers i).setBias (b i) else D.subLayers i := by
  have h := foldl_write_nodup
    (fun Db i0 =>
      { Db with
        subLayers := Function.update Db.subLayers i0 ((Db.subLayers i0).setBias (b i0)) })
    (fun c => c.subLayers) (fun i0 d1 => d1.setBias (b i0))
    (by intro a i0 i1; simp [Function.update_apply])
    (List.range D.out_size) (List.nodup_range D.out_size) D i
  simpa [List.mem_range] using h

theorem dense_forward_apply (D : Dense) (input out0 : Nat → ℚ) (i : Nat)
    (hi : i < D.out_size) :
    D.forward input out0 i = (D.subLayers i).forward input := by
  have h := foldl_write_nodup
    (fun o i0 => Function.update o i0 ((D.subLayers i0).forward input))
    (fun o => o) (fun i0 _ => (D.subLayers i0).forward input)
    (by intro a i0 i1; simp [Function.update_apply])
    (List.range D.out_size) (List.nodup_range D.out_size) out0 i
  simpa [List.mem_range, hi] using h

theorem dense1_forward_eq (d : Dense1) (input : Nat → ℚ) :
    d.forward input = (∑ j ∈ Finset.range d.in_size, d.weights j * input j) + d.bias := by
  show (List.range d.in_size).foldl (fun acc j => acc + d.weights j * input j) 0 + d.bias = _
  rw [foldl_add_eq (fun j => d.weights j * input j) d.in_size 0, zero_add]

/-- C4: for every Dense layer, after `setWeights w` and `setBias b`,
`forward input` writes, for each output unit `i < out_size`,
`output[i] = (sum over j < in_size of w[i][j] * input[j]) + b[i]`, with no
activation function applied.  The heap parameters are the indeterminate
contents of the fresh allocations and do not affect the result. -/
theorem dense_forward_affine (ins outs : Nat) (hw : Nat → Nat → ℚ) (hb : Nat → ℚ)
    (w : Nat → Nat → ℚ) (b : Nat → ℚ) (input out0 : Nat → ℚ) (i : Nat)
    (hi : i < outs) :
    (((Dense.new ins outs hw hb).setWeights w).setBias b).forward input out0 i
      = (∑ j ∈ Finset.range ins, w i j * input j) + b i := by
  have e1 : (((Dense.new ins outs hw hb).setWeights w).setBias b).out_size = outs := by
    rw [dense_setB_out_size, dense_setW_out_size]
    rfl
  rw [dense_forward_apply _ input out0 i (by rw [e1]; exact hi)]
  rw [dense_setB_subLayers]
  rw [if_pos (show i < ((Dense.new ins outs hw hb).setWeights w).out_size by
    rw [dense_setW_out_size]; exact hi)]
  rw [dense_setW_subLayers]
  rw [if_pos (show i < (Dense.new ins outs hw hb).out_size from hi)]
  rw [dense1_forward_eq]
  have hsub : (Dense.new ins outs hw hb).subLayers i = Dense1.new ins (hw i) (hb i) := rfl
  rw [hsub]
  have hin : ((((Dense1.new ins (hw i) (hb i)).setWeights (w i))).setBias (b i)).in_size
      = ins := by
    show ((Dense1.new ins (hw i) (hb i)).setWeights (w i)).in_size = ins
    rw [dense1_setW_in_size]
    rfl
  rw [hin]
  congr 1
  apply Finset.sum_congr rfl
  intro j hj
  have hjw : ((((Dense1.new ins (hw i) (hb i)).setWeights (w i))).setBias (b i)).weights j
      = w i j := by
    show (((Dense1.new ins (hw i) (hb i)).setWeights (w i))).weights j = w i j
    rw [dense1_setW_weights]
    exact if_pos (Finset.mem_range.mp hj)
  rw [hjw]

/-- C4 witness: the affine formula evaluated at a concrete configured layer,
`in_size = 3`, `out_size = 2`, output unit `i = 1`. -/
theorem dense_forward_affine_witness :
    (1 : Nat) < 2
    ∧ (((Dense.new 3 2 (fun _ _ => 9) (fun _ => 9)).setWeights wFix).setBias bFix).forward
        xFix (fun _ => 0) 1
      = (∑ j ∈ Finset.range 3, wFix 1 j * xFix j) + bFix 1 :=
  ⟨by decide, dense_forward_affine 3 2 (fun _ _ => 9) (fun _ => 9) wFix bFix xFix
    (fun _ => 0) 1 (by decide)⟩

/-- C5 counterexample: the STL-backend `Dense1` constructor does not
zero-initialize: with allocator-provided contents `5` and bias garbage `7`,
the freshly constructed layer's bias is `7`, not `0` (and its weights are
`5`, not `0`).  The source constructor only runs `weights = new T[in_size];`,
which leaves both indeterminate. -/
theorem dense_uninit_counterexample :
    ¬ ∀ (heapW : Nat → ℚ) (heapB : ℚ),
        (∀ j, (Dense1.new 1 heapW heapB).weights j = 0)
        ∧ (Dense1.new 1 heapW heapB).bias = 0 := by
  intro h
  have hb := (h (fun _ => 5) 7).2
  norm_num [Dense1.new] at hb

/-- C5 (amended): the Eigen LSTM constructor zero-initializes every weight,
bias and state buffer, but the STL-backend `Dense1` constructor initializes
nothing: its post-construction weights and bias are exactly the indeterminate
contents the allocator provided. -/
theorem construction_init_amended (ins outs n : Nat) (hw : Nat → ℚ) (hb : ℚ) :
    ((LSTMLayer.new ins outs).Wf = fun _ _ => 0)
    ∧ ((LSTMLayer.new ins outs).Wi = fun _ _ => 0)
    ∧ ((LSTMLayer.new ins outs).Wo = fun _ _ => 0)
    ∧ ((LSTMLayer.new ins outs).Wc = fun _ _ => 0)
    ∧ ((LSTMLayer.new ins outs).Uf = fun _ _ => 0)
    ∧ ((LSTMLayer.new ins outs).Ui = fun _ _ => 0)
    ∧ ((LSTMLayer.new ins outs).Uo = fun _ _ => 0)
    ∧ ((LSTMLayer.new ins outs).Uc = fun _ _ => 0)
    ∧ ((LSTMLayer.new ins outs).bf = fun _ => 0)
    ∧ ((LSTMLayer.new ins outs).bi = fun _ => 0)
    ∧ ((LSTMLayer.new ins outs).bo = fun _ => 0)
    ∧ ((LSTMLayer.new ins outs).bc = fun _ => 0)
    ∧ ((LSTMLayer.new ins outs).fVec = fun _ => 0)
    ∧ ((LSTMLayer.new ins outs).iVec = fun _ => 0)
    ∧ ((LSTMLayer.new ins outs).oVec = fun _ => 0)
    ∧ ((LSTMLayer.new ins outs).ctVec = fun _ => 0)
    ∧ ((LSTMLayer.new ins outs).cVec = fun _ => 0)
    ∧ ((LSTMLayer.new ins outs).inVec = fun _ => 0)
    ∧ ((LSTMLayer.new ins outs).ht1 = fun _ => 0)
    ∧ ((LSTMLayer.new ins outs).ct1 = fun _ => 0)
    ∧ (Dense1.new n hw hb).weights = hw
    ∧ (Dense1.new n hw hb).bias = hb :=
  ⟨rfl, rfl, rfl, rfl, rfl, rfl, rfl, rfl, rfl, rfl, rfl, rfl, rfl, rfl, rfl, rfl,
    rfl, rfl, rfl, rfl, rfl, rfl⟩

/-- C9 (code-bug exhibit): the GRU getter does not round-trip the setter at
the gate boundary.  With `in_size = out_size = 1` and the combined buffer
row `10, 20, 30`, `getWVal(0, 1)` must return `wVals[0][1] = 20` (the
reset-gate slot written by `setWVals`), but the strict `>` guards send the
lookup to the update-gate kernel and `k % out_size` wraps the index, so the
code returns `wVals[0][0] = 10`. -/
theorem gru_getw_boundary_bug :
    ((GRULayer.new 1 1).setWVals wBug).getWVal 0 1 Nat.one_pos = wBug 0 0
    ∧ wBug 0 0 ≠ wBug 0 1 := by
  constructor
  · simp [GRULayer.getWVal, gru_setW_z]
  · norm_num [wBug]

/-- C10 (code-bug exhibit): none of the copy-assignment operators terminates.
Each is `return *this = T(other);`, which re-invokes the same user-defined
copy-assignment on a fresh temporary with no base case; for every fuel bound
the modelled recursion exhausts the fuel without returning. -/
theorem assign_never_terminates (ins outs : Nat) :
    ∀ (fuel : Nat) (d1 d2 : Dense) (hw : Nat → Nat → ℚ) (hb : Nat → ℚ)
      (l1 l2 : LSTMLayer ins outs) (g1 g2 : GRULayer ins outs),
      denseAssign fuel d1 d2 hw hb = none
      ∧ lstmAssign fuel l1 l2 = none
      ∧ gruAssign fuel g1 g2 = none := by
  intro fuel
  induction fuel with
  | zero => intro d1 d2 hw hb l1 l2 g1 g2; exact ⟨rfl, rfl, rfl⟩
  | succ fuel ih =>
    intro d1 d2 hw hb l1 l2 g1 g2
    exact ⟨(ih d1 (Dense.copy d2 hw hb) hw hb l1 l2 g1 g2).1,
      (ih d1 d2 hw hb l1 (LSTMLayer.copy l2) g1 g2).2.1,
      (ih d1 d2 hw hb l1 l2 g1 (GRULayer.copy g2)).2.2⟩

/-! ### Test-runner lemmas -/

theorem foldl_count_gen (P : Nat → Prop) [DecidablePred P] (h2 : Nat → Nat × ℚ → ℚ) :
    ∀ (N : Nat) (a : Nat × ℚ),
      ((List.range N).foldl (fun acc n => if P n then (acc.1 + 1, h2 n acc) else acc) a).1
        = a.1 + ((Finset.range N).filter P).card := by
  intro N
  induction N with
  | zero => intro a; simp
  | succ N ih =>
    intro a
    rw [List.range_succ, List.foldl_append, List.foldl_cons, List.foldl_nil,
      Finset.range_succ, Finset.filter_insert]
    by_cases hP : P N
    · rw [if_pos hP, if_pos hP,
        Finset.card_insert_of_not_mem (fun hm => by simp at hm)]
      dsimp only
      rw [ih]
      omega
    · rw [if_neg hP, if_neg hP, ih]

theorem runTestErrs_count (yData yRef : List ℚ) (t : ℚ) :
    (runTestErrs yData yRef t).1 =
      ((Finset.range yData.length).filter
        (fun n => t < |yData.getD n 0 - yRef.getD n 0|)).card := by
  have h := foldl_count_gen (fun n => t < |yData.getD n 0 - yRef.getD n 0|)
    (fun n acc => max |yData.getD n 0 - yRef.getD n 0| acc.2) yData.length ((0, 0) : Nat × ℚ)
  dsimp only at h
  rw [Nat.zero_add] at h
  exact h

/-- C8: the error-counting test runner reports success (returns 0) exactly
when every sample of the sequence is within the threshold (code: an error is
counted when `|yData[n] - yRef[n]| > threshold`, so success means every
absolute difference is at most the threshold); otherwise it returns 1, the
reported error count is the number of offending samples, and the configured
thresholds are 1.0e-6 for the LSTM test and 5.0e-6 for the GRU test. -/
theorem runTest_success_iff (yData yRef : List ℚ) (t : ℚ) :
    (runTestResult yData yRef t = 0 ↔
      ∀ n, n < yData.length → |yData.getD n 0 - yRef.getD n 0| ≤ t)
    ∧ (runTestResult yData yRef t = 1 ↔
      ∃ n, n < yData.length ∧ t < |yData.getD n 0 - yRef.getD n 0|)
    ∧ (runTestErrs yData yRef t).1
      = ((Finset.range yData.length).filter
          (fun n => t < |yData.getD n 0 - yRef.getD n 0|)).card
    ∧ (tests TestKey.lstm).threshold = 1 / 1000000
    ∧ (tests TestKey.gru).threshold = 5 / 1000000 := by
  have hiff : (((Finset.range yData.length).filter
      (fun n => t < |yData.getD n 0 - yRef.getD n 0|)).card = 0)
      ↔ ∀ n, n < yData.length → |yData.getD n 0 - yRef.getD n 0| ≤ t := by
    rw [Finset.card_eq_zero, Finset.filter_eq_empty_iff]
    constructor
    · intro h n hn
      exact not_lt.mp (h (Finset.mem_range.mpr hn))
    · intro h x hx
      exact not_lt.mpr (h x (Finset.mem_range.mp hx))
  have hpos : (0 < ((Finset.range yData.length).filter
      (fun n => t < |yData.getD n 0 - yRef.getD n 0|)).card)
      ↔ ∃ n, n < yData.length ∧ t < |yData.getD n 0 - yRef.getD n 0| := by
    rw [Finset.card_pos]
    constructor
    · rintro ⟨x, hx⟩
      rw [Finset.mem_filter, Finset.mem_range] at hx
      exact ⟨x, hx.1, hx.2⟩
    · rintro ⟨n, hn, hp⟩
      exact ⟨n, Finset.mem_filter.mpr ⟨Finset.mem_range.mpr hn, hp⟩⟩
  refine ⟨?_, ?_, runTestErrs_count yData yRef t, rfl, rfl⟩
  · refine Iff.trans ?_ hiff
    unfold runTestResult
    rw [runTestErrs_count]
    split <;> omega
  · refine Iff.trans ?_ hpos
    unfold runTestResult
    rw [runTestErrs_count]
    split <;> omega

/-! ### Softmax backend lemmas -/

theorem softmaxSTL_eq (e : ℚ → ℚ) (input out0 : Nat → ℚ) (size : Nat) (i : Nat)
    (hi : i < size) :
    softmaxSTL e input out0 size i
      = e (input i) / ∑ j ∈ Finset.range size, e (input j) := by
  simp only [softmaxSTL]
  rw [List.range_eq_range']
  set FP := (List.range' 0 size).foldl
    (fun (acc : (Nat → ℚ) × ℚ) i =>
      (Function.update acc.1 i (e (input i)), acc.2 + e (input i)))
    (out0, (0 : ℚ)) with hFP
  have hsum : FP.2 = ∑ j ∈ Finset.range size, e (input j) := by
    rw [hFP]
    have h := foldl_snd_add
      (fun (acc : (Nat → ℚ) × ℚ) i =>
        (Function.update acc.1 i (e (input i)), acc.2 + e (input i)))
      (fun i => e (input i)) (fun _ _ => rfl) (List.range' 0 size) (out0, (0 : ℚ))
    rw [h, list_range'_map_sum]
    simp
  have hfst : FP.1 i = e (input i) := by
    rw [hFP]
    have h := foldl_seg_update
      (fun (acc : (Nat → ℚ) × ℚ) i0 =>
        (Function.update acc.1 i0 (e (input i0)), acc.2 + e (input i0)))
      (fun acc => acc.1) (fun i0 _ => e (input i0))
      (by intro a i0 k0; simp [Function.update_apply])
      size 0 (out0, (0 : ℚ)) i
    rw [h, if_pos ⟨Nat.zero_le i, by omega⟩]
  have hdiv := foldl_seg_update
    (fun (o : Nat → ℚ) i0 => Function.update o i0 (o i0 / FP.2))
    (fun o => o) (fun i0 v => v / FP.2)
    (by intro a i0 k0; simp [Function.update_apply])
    size 0 FP.1 i
  rw [hdiv, if_pos ⟨Nat.zero_le i, by omega⟩, hfst, hsum]

theorem softmaxXsimd_eq (e : ℚ → ℚ) (inc : Nat) (input out0 : Nat → ℚ) (dim : Nat)
    (i : Nat) (hinc : 0 < inc) (hi : i < dim) :
    softmaxXsimd e inc input out0 dim i
      = e (input i) / ∑ j ∈ Finset.range dim, e (input j) := by
  simp only [softmaxXsimd]
  generalize hVdef : dim - dim % inc = V
  generalize hMdef : V / inc = M
  have hdam := Nat.div_add_mod dim inc
  have hmod := Nat.mod_le dim inc
  have hVeq : V = inc * (dim / inc) := by omega
  have hMeq : M = dim / inc := by
    rw [← hMdef, hVeq, Nat.mul_div_cancel_left _ hinc]
  have hMV : M * inc = V := by rw [hMeq, hVeq]; ring
  have hVle : V ≤ dim := by omega
  set P := (List.range M).foldl
    (fun (acc : (Nat → ℚ) × ℚ) c =>
      ((fun k => if c * inc ≤ k ∧ k < c * inc + inc then e (input k) else acc.1 k),
        acc.2 + ∑ j ∈ Finset.range inc, e (input (c * inc + j))))
    (out0, (0 : ℚ)) with hP
  set Q := (List.range' V (dim - V)).foldl
    (fun (acc : (Nat → ℚ) × ℚ) i0 =>
      (Function.update acc.1 i0 (e (input i0)), acc.2 + e (input i0))) P with hQ
  have hP1 : ∀ k, k < V → P.1 k = e (input k) := by
    intro k hk
    rw [hP]
    have h := foldl_chunk_map inc
      (fun (acc : (Nat → ℚ) × ℚ) c =>
        ((fun k => if c * inc ≤ k ∧ k < c * inc + inc then e (input k) else acc.1 k),
          acc.2 + ∑ j ∈ Finset.range inc, e (input (c * inc + j))))
      (fun acc => acc.1) (fun k _ => e (input k))
      (fun _ _ _ => rfl) M (out0, (0 : ℚ)) k
    rw [h, if_pos (by omega)]
  have hP2 : P.2 = ∑ k ∈ Finset.range V, e (input k) := by
    rw [hP]
    have h := foldl_snd_add
      (fun (acc : (Nat → ℚ) × ℚ) c =>
        ((fun k => if c * inc ≤ k ∧ k < c * inc + inc then e (input k) else acc.1 k),
          acc.2 + ∑ j ∈ Finset.range inc, e (input (c * inc + j))))
      (fun c => ∑ j ∈ Finset.range inc, e (input (c * inc + j)))
      (fun _ _ => rfl) (List.range M) (out0, (0 : ℚ))
    rw [h, list_range_map_sum]
    have hsb := sum_blocks (fun k => e (input k)) inc M
    rw [hMV] at hsb
    dsimp only
    rw [zero_add]
    exact hsb
  have hQ1 : ∀ k, k < dim → Q.1 k = e (input k) := by
    intro k hk
    rw [hQ]
    have h := foldl_seg_update
      (fun (acc : (Nat → ℚ) × ℚ) i0 =>
        (Function.update acc.1 i0 (e (input i0)), acc.2 + e (input i0)))
      (fun acc => acc.1) (fun i0 _ => e (input i0))
      (by intro a i0 k0; simp [Function.update_apply])
      (dim - V) V P k
    rw [h]
    by_cases hkV : k < V
    · rw [if_neg (by omega), hP1 k hkV]
    · rw [if_pos (by omega)]
  have hQ2 : Q.2 = ∑ j ∈ Finset.range dim, e (input j) := by
    rw [hQ]
    have h := foldl_snd_add
      (fun (acc : (Nat → ℚ) × ℚ) i0 =>
        (Function.update acc.1 i0 (e (input i0)), acc.2 + e (input i0)))
      (fun i0 => e (input i0)) (fun _ _ => rfl) (List.range' V (dim - V)) P
    rw [h, list_range'_map_sum, hP2]
    have hd : V + (dim - V) = dim := by omega
    have hsb := sum_range_add_block (fun k => e (input k)) V (dim - V)
    rw [hd] at hsb
    exact hsb.symm
  have hR := foldl_chunk_map inc
    (fun (o : Nat → ℚ) c =>
      fun k => if c * inc ≤ k ∧ k < c * inc + inc then o k / Q.2 else o k)
    (fun o => o) (fun _ v => v / Q.2)
    (fun _ _ _ => rfl) M Q.1
  have hfinal := foldl_seg_update
    (fun (o : Nat → ℚ) i0 => Function.update o i0 (o i0 / Q.2))
    (fun o => o) (fun i0 v => v / Q.2)
    (by intro a i0 k0; simp [Function.update_apply])
    (dim - V) V ((List.range M).foldl
      (fun (o : Nat → ℚ) c =>
        fun k => if c * inc ≤ k ∧ k < c * inc + inc then o k / Q.2 else o k) Q.1) i
  rw [hfinal]
  by_cases hiV : i < V
  · rw [if_neg (by omega), hR i, if_pos (by omega), hQ1 i hi, hQ2]
  · rw [if_pos (by omega), hR i, if_neg (by omega), hQ1 i hi, hQ2]

/-- C6: for every input length (including lengths that are not a multiple of
the SIMD width `inc`), both the scalar-backend softmax and the xsimd-backend
softmax compute `out[i] = e(x[i]) / (sum over j < dim of e(x[j]))` in a
single pass accumulating the sum incrementally and with no max-subtraction
step, so the two backends compute the same function.  The exponential is the
abstract parameter `e`, so this holds in particular for the real `exp`;
arithmetic is the exact reference semantics. -/
theorem softmax_backends_agree (e : ℚ → ℚ) (inc : Nat) (input out0 out1 : Nat → ℚ)
    (dim : Nat) (i : Nat) (hinc : 0 < inc) (hi : i < dim) :
    softmaxSTL e input out0 dim i = e (input i) / ∑ j ∈ Finset.range dim, e (input j)
    ∧ softmaxXsimd e inc input out1 dim i
      = e (input i) / ∑ j ∈ Finset.range dim, e (input j)
    ∧ softmaxSTL e input out0 dim i = softmaxXsimd e inc input out1 dim i := by
  refine ⟨softmaxSTL_eq e input out0 dim i hi,
    softmaxXsimd_eq e inc input out1 dim i hinc hi, ?_⟩
  rw [softmaxSTL_eq e input out0 dim i hi, softmaxXsimd_eq e inc input out1 dim i hinc hi]

/-- C6 witness: SIMD width 4, vector length 6 (not a multiple of 4), lane 5
(in the scalar tail), with a concrete stand-in for the exponential. -/
theorem softmax_backends_agree_witness :
    (0 : Nat) < 4 ∧ (5 : Nat) < 6
    ∧ (softmaxSTL eFix sFix (fun _ => 3) 6 5
        = eFix (sFix 5) / ∑ j ∈ Finset.range 6, eFix (sFix j)
      ∧ softmaxXsimd eFix 4 sFix (fun _ => 4) 6 5
        = eFix (sFix 5) / ∑ j ∈ Finset.range 6, eFix (sFix j)
      ∧ softmaxSTL eFix sFix (fun _ => 3) 6 5 = softmaxXsimd eFix 4 sFix (fun _ => 4) 6 5) :=
  ⟨by decide, by decide,
    softmax_backends_agree eFix 4 sFix (fun _ => 3) (fun _ => 4) 6 5 (by decide) (by decide)⟩

end RTNeural
